import Mathlib

/-!
Shallow embedding of the word-completion assistant:
`Assignment_1/2024202006_Q2/Code/ngram.py` (class `NgramCharacterModel`) and
`Assignment_1/2024202006_Q2/Code/user_interface.py` (class `TerminalUI`).

Conventions of the embedding:
* Python strings are `List Char`; Python `str.split()` / `str.strip()` are
  modelled with `Char.isWhitespace` (space, tab, CR, LF — Python's `\s` adds
  `\f`/`\v`, which never matter here).
* `defaultdict(int)` count tables are total functions `List Char → Nat`
  (a missing key reads as `0`, exactly as in Python).
* Python floats are idealised as exact rationals `ℚ`: the source accumulates
  `log` values and finishes with `exp`, and `exp (∑ log xᵢ) = ∏ xᵢ` exactly,
  so the idealised value of `_word_probability` is the plain product of the
  per-window conditional probabilities.
* A Python exception is modelled by `Option`/`Except`: `math.log(0.0)`
  raises `ValueError`, so `_word_probability` returns `none` on the raising
  path.
* The iteration order of the Python `set` `self.words` is arbitrary but
  fixed within a run; it is modelled by the deterministic order
  `(splitWs corpus).dedup`.
* `list.sort(key=f, reverse=True)` is CPython's stable descending sort; it
  is modelled by `List.insertionSort` with order `f b ≤ f a`, which is also
  stable-descending, hence produces the identical list.
-/

/-- Helper for `splitWs`: accumulates the current run of non-whitespace
characters (reversed) while scanning the text. -/
def splitWsAux : List Char → List Char → List (List Char)
  | [], acc => if acc.isEmpty then [] else [acc.reverse]
  | c :: cs, acc =>
    if c.isWhitespace then
      if acc.isEmpty then splitWsAux cs [] else acc.reverse :: splitWsAux cs []
    else splitWsAux cs (c :: acc)

/-- Python `str.split()` (no argument): split on runs of whitespace,
discarding empty tokens. -/
def splitWs (t : List Char) : List (List Char) := splitWsAux t []

/-- Python `str.strip()`: remove leading and trailing whitespace. -/
def stripWs (t : List Char) : List Char :=
  ((t.dropWhile Char.isWhitespace).reverse.dropWhile Char.isWhitespace).reverse

/-- Padded form of a word, from `_train`/`_word_probability`:
`("#" * (self.n - 1)) + word + "$"`.  Python's `"#" * (n-1)` is empty for
`n ≤ 1`, which agrees with `Nat` truncated subtraction. -/
def padded (n : Nat) (w : List Char) : List Char :=
  List.replicate (n - 1) '#' ++ w ++ ['$']

/-- Windows of the sliding loop `for i in range(len(padded_word) - self.n + 1)`
with `ngram = padded_word[i : i + self.n]`.  For a padded word of order `n`
Python's `len(padded_word) - n + 1` is `≥ 1`, so `Nat` subtraction agrees
with Python's `int` arithmetic there. -/
def ngramWindows (n : Nat) (p : List Char) : List (List Char) :=
  (List.range (p.length - n + 1)).map (fun i => (p.drop i).take n)

/-- Value of `self.ngram_counts[g]` after `_train(corpus)`: each token of the
corpus (duplicates included) contributes the number of occurrences of `g`
among the windows of its padded form. -/
def ngramCount (corpus : List Char) (n : Nat) (g : List Char) : Nat :=
  ((splitWs corpus).map (fun w => (ngramWindows n (padded n w)).count g)).sum

/-- Value of `self.prefix_counts[p]` after `_train(corpus)` (the source field
`prefix_counts` is renamed: `prefix` is a Lean keyword).  Each window `g`
contributes to the key `g[:-1]`. -/
def ctxCount (corpus : List Char) (n : Nat) (p : List Char) : Nat :=
  ((splitWs corpus).map
      (fun w => ((ngramWindows n (padded n w)).map List.dropLast).count p)).sum

/-- Multiset of every window counted during training, used to state the
counting invariant relating the two tables. -/
def allNgrams (corpus : List Char) (n : Nat) : List (List Char) :=
  (splitWs corpus).flatMap (fun w => ngramWindows n (padded n w))

/-- State of a trained `NgramCharacterModel`: the order `n`, the two count
tables and the vocabulary `self.words`. -/
structure NgramCharacterModel where
  n : Nat
  ngram_counts : List Char → Nat
  ctx_counts : List Char → Nat
  words : List (List Char)

/-- Result of `NgramCharacterModel.__init__(corpus, n)` (which calls
`_train(corpus)`): the fully populated model. -/
def NgramCharacterModel.train (corpus : List Char) (n : Nat) : NgramCharacterModel :=
  { n := n
    ngram_counts := ngramCount corpus n
    ctx_counts := ctxCount corpus n
    words := (splitWs corpus).dedup }

/-- Construction entry point `NgramCharacterModel(corpus, n)`.  The Python
`__init__` performs no validation of `n` whatsoever and no statement in it
can raise for a string corpus, so it always returns a model; the `Except`
result type records exactly that absence of any failure path. -/
def NgramCharacterModel.init (corpus : List Char) (n : Nat) :
    Except String NgramCharacterModel :=
  Except.ok (NgramCharacterModel.train corpus n)

/-- Loop of `_word_probability`: walk the windows, return `0.0` as soon as a
context count is `0`, raise (`none`) when `math.log(count_ngram/count_prefix)`
is taken at `count_ngram = 0` (Python's `math.log(0.0)` raises `ValueError`),
and otherwise accumulate the product (the exact value of
`exp(Σ log(count_ngram/count_prefix))`). -/
def probGo (m : NgramCharacterModel) : List (List Char) → ℚ → Option ℚ
  | [], acc => some acc
  | g :: gs, acc =>
    if m.ctx_counts g.dropLast = 0 then some 0
    else if m.ngram_counts g = 0 then none
    else probGo m gs (acc * ((m.ngram_counts g : ℚ) / (m.ctx_counts g.dropLast : ℚ)))

/-- Embedding of `NgramCharacterModel._word_probability(word)`.  `none`
models the `ValueError` raised by `math.log(0.0)`. -/
def NgramCharacterModel.word_probability (m : NgramCharacterModel) (w : List Char) :
    Option ℚ :=
  probGo m (ngramWindows m.n (padded m.n w)) 1

/-- Ranking key used by `_generate_word` and `predict_top_words`
(`key=self._word_probability`).  Both only ever apply it to members of
`self.words`, on which `word_probability` never takes the raising branch
(see `word_probability_of_trained_mem`), so the `getD 0` default is never
consulted for a trained model. -/
def probVal (m : NgramCharacterModel) (w : List Char) : ℚ :=
  (m.word_probability w).getD 0

/-- Embedding of Python `max(candidates, key=f)`: scan left to right, keep
the current best, replace it only on a strictly larger key — so the result
is the earliest candidate attaining the maximal key. -/
def maxKeyFold {α : Type} (key : α → ℚ) (best : α) : List α → α
  | [] => best
  | x :: xs => if key best < key x then maxKeyFold key x xs else maxKeyFold key best xs

/-- Embedding of `NgramCharacterModel._generate_word(prefix)`:
filter the vocabulary by prefix, return the prefix itself when nothing
matches, otherwise the `max` by n-gram probability. -/
def NgramCharacterModel.generate_word (m : NgramCharacterModel) (p : List Char) :
    List Char :=
  match m.words.filter (fun w => p.isPrefixOf w) with
  | [] => p
  | c :: cs => maxKeyFold (probVal m) c cs

/-- Embedding of `NgramCharacterModel.predict_top_words(prefix, top_k=10)`:
filter the vocabulary by prefix, return `[]` when nothing matches, otherwise
the stable descending sort by probability truncated to `top_k` entries. -/
def NgramCharacterModel.predict_top_words (m : NgramCharacterModel) (p : List Char)
    (top_k : Nat) : List (List Char) :=
  match m.words.filter (fun w => p.isPrefixOf w) with
  | [] => []
  | c :: cs =>
    (List.insertionSort (fun a b => probVal m b ≤ probVal m a) (c :: cs)).take top_k

/-- Curses key code `curses.KEY_RESIZE`. -/
def KEY_RESIZE : Nat := 410

/-- Curses key code `curses.KEY_BACKSPACE`. -/
def KEY_BACKSPACE : Nat := 263

/-- Curses key code `curses.KEY_LEFT`. -/
def KEY_LEFT : Nat := 260

/-- Curses key code `curses.KEY_RIGHT`. -/
def KEY_RIGHT : Nat := 261

/-- Mutable state of `TerminalUI` touched by `handle_input` (panel/rendering
fields of the source are excluded as renderer-only). -/
structure TerminalUI where
  prediction_model : NgramCharacterModel
  user_input : List Char
  cursor_pos : Nat
  suggestions : List (List Char)
  current_suggestion_idx : Nat
  scores : List ℚ
  total_letter_keys_typed : Nat
  total_tab_key_presses : Nat

/-- Embedding of `TerminalUI.calculate_scores(text)`: the two raw counters
followed by the two per-word averages, which divide by the number of
whitespace-delimited words of `text` and are `0.0` when there is none. -/
def TerminalUI.calculate_scores (s : TerminalUI) (text : List Char) : List ℚ :=
  let num_words := (splitWs (stripWs text)).length
  [(s.total_letter_keys_typed : ℚ),
   (s.total_tab_key_presses : ℚ),
   if 0 < num_words then (s.total_letter_keys_typed : ℚ) / (num_words : ℚ) else 0,
   if 0 < num_words then (s.total_tab_key_presses : ℚ) / (num_words : ℚ) else 0]

/-- Embedding of `TerminalUI.find_last_word_start(text, cursor_pos)`: the
regex `[^\s]*$` on `text[:cursor_pos]` matches the maximal trailing run of
non-whitespace characters (it always matches, possibly emptily), and the
function returns `cursor_pos` minus that run's length. -/
def find_last_word_start (text : List Char) (cursor_pos : Nat) : Nat :=
  if cursor_pos = 0 then 0
  else cursor_pos -
    ((text.take cursor_pos).reverse.takeWhile (fun c => !c.isWhitespace)).length

/-- Embedding of `TerminalUI.get_current_word()`:
`self.user_input[word_start:self.cursor_pos]`. -/
def TerminalUI.get_current_word (s : TerminalUI) : List Char :=
  (s.user_input.take s.cursor_pos).drop (find_last_word_start s.user_input s.cursor_pos)

/-- Embedding of `TerminalUI.replace_current_word(new_word)`. -/
def TerminalUI.replace_current_word (s : TerminalUI) (new_word : List Char) : TerminalUI :=
  let word_start := find_last_word_start s.user_input s.cursor_pos
  { s with
    user_input := s.user_input.take word_start ++ new_word ++ s.user_input.drop s.cursor_pos
    cursor_pos := word_start + new_word.length }

/-- Embedding of `TerminalUI.handle_input(key)`: returns the updated state
and the boolean the Python method returns (`False` exactly on ESC).  The
branch structure and its order follow the source line by line; `top_k` is
the source's default `10`. -/
def TerminalUI.handle_input (s : TerminalUI) (key : Nat) : TerminalUI × Bool :=
  if key = KEY_RESIZE then (s, true)
  else if key = 27 then (s, false)
  else if key = 9 then
    if s.suggestions.isEmpty then
      ({ s with total_tab_key_presses := s.total_tab_key_presses + 1 }, true)
    else
      ({ s with
          current_suggestion_idx := (s.current_suggestion_idx + 1) % s.suggestions.length
          total_tab_key_presses := s.total_tab_key_presses + 1 }, true)
  else if key = 10 then
    if s.suggestions ≠ [] ∧ s.current_suggestion_idx < s.suggestions.length then
      let s1 := s.replace_current_word (s.suggestions.getD s.current_suggestion_idx [])
      ({ s1 with suggestions := [], current_suggestion_idx := 0 }, true)
    else (s, true)
  else if key = KEY_BACKSPACE ∨ key = 127 ∨ key = 8 then
    if 0 < s.cursor_pos then
      let s1 := { s with
        user_input := s.user_input.take (s.cursor_pos - 1) ++ s.user_input.drop s.cursor_pos
        cursor_pos := s.cursor_pos - 1 }
      let s2 := { s1 with
        suggestions := s1.prediction_model.predict_top_words s1.get_current_word 10
        current_suggestion_idx := 0 }
      ({ s2 with scores := s2.calculate_scores s2.user_input }, true)
    else (s, true)
  else if key = KEY_LEFT then
    if 0 < s.cursor_pos then
      let s1 := { s with cursor_pos := s.cursor_pos - 1 }
      ({ s1 with
          suggestions := s1.prediction_model.predict_top_words s1.get_current_word 10
          current_suggestion_idx := 0 }, true)
    else (s, true)
  else if key = KEY_RIGHT then
    if s.cursor_pos < s.user_input.length then
      let s1 := { s with cursor_pos := s.cursor_pos + 1 }
      ({ s1 with
          suggestions := s1.prediction_model.predict_top_words s1.get_current_word 10
          current_suggestion_idx := 0 }, true)
    else (s, true)
  else if 32 ≤ key ∧ key ≤ 126 then
    let s1 := { s with
      total_letter_keys_typed := s.total_letter_keys_typed + 1
      user_input := s.user_input.take s.cursor_pos ++ [Char.ofNat key] ++
        s.user_input.drop s.cursor_pos
      cursor_pos := s.cursor_pos + 1 }
    let s2 := { s1 with
      suggestions := s1.prediction_model.predict_top_words s1.get_current_word 10
      current_suggestion_idx := 0 }
    ({ s2 with scores := s2.calculate_scores s2.user_input }, true)
  else (s, true)

/-- One step of the read-eval loop of `TerminalUI.run`: the loop runs
`running = self.handle_input(key)` only `while running`, so once
`handle_input` has returned `False` (ESC, the quit signal) no later key
reaches `handle_input` and the session state never changes again.  The pair
component `Bool` is the loop's `running` flag. -/
def dispatch (s : TerminalUI × Bool) (key : Nat) : TerminalUI × Bool :=
  if s.2 then s.1.handle_input key else s

/-- Every window produced by the sliding loop over a padded word has length
exactly the model order `n`. -/
lemma length_of_mem_ngramWindows {n : Nat} {w g : List Char}
    (hg : g ∈ ngramWindows n (padded n w)) : g.length = n := by
  obtain ⟨i, hi, rfl⟩ := List.mem_map.1 hg
  rw [List.mem_range] at hi
  have hlen : (padded n w).length = (n - 1) + w.length + 1 := by
    simp only [padded, List.length_append, List.length_replicate, List.length_cons,
      List.length_nil]
  have hle : n ≤ (padded n w).length - i := by omega
  rw [List.length_take, List.length_drop]
  exact min_eq_left hle

/-- Mapping a function over a list can only merge occurrence classes, never
split them: the count of `f a` in the image dominates the count of `a`. -/
lemma count_le_count_map {α β : Type} [BEq α] [LawfulBEq α] [BEq β] [LawfulBEq β]
    (f : α → β) (l : List α) (a : α) : l.count a ≤ (l.map f).count (f a) := by
  rw [List.count_eq_countP, List.count_eq_countP, List.countP_map]
  refine List.countP_mono_left fun x _ hx => ?_
  have : x = a := by simpa using hx
  simp [this]

/-- A positive sum of a mapped list exhibits a positive summand. -/
lemma exists_pos_of_sum_map_pos {α : Type} {l : List α} {f : α → Nat}
    (h : 0 < (l.map f).sum) : ∃ x ∈ l, 0 < f x := by
  by_contra hc
  push_neg at hc
  have : (l.map f).sum = 0 := by
    rw [List.sum_eq_zero_iff]
    intro x hx
    obtain ⟨a, ha, rfl⟩ := List.mem_map.1 hx
    exact Nat.le_zero.mp (hc a ha)
  omega

/-- Any window of a corpus token has a positive entry in the trained ngram
table. -/
lemma ngramCount_pos_of_mem {corpus w g : List Char} {n : Nat}
    (hw : w ∈ splitWs corpus) (hg : g ∈ ngramWindows n (padded n w)) :
    0 < ngramCount corpus n g := by
  have h1 : 0 < (ngramWindows n (padded n w)).count g := List.count_pos_iff.2 hg
  have h2 := List.single_le_sum (l := (splitWs corpus).map
      (fun w' => (ngramWindows n (padded n w')).count g))
    (fun x _ => Nat.zero_le x) _
    (List.mem_map_of_mem (fun w' => (ngramWindows n (padded n w')).count g) hw)
  exact lt_of_lt_of_le h1 h2

/-- Any window of a corpus token has a positive entry in the trained context
table at its `[:-1]` key. -/
lemma ctxCount_pos_of_mem {corpus w g : List Char} {n : Nat}
    (hw : w ∈ splitWs corpus) (hg : g ∈ ngramWindows n (padded n w)) :
    0 < ctxCount corpus n g.dropLast := by
  have h1 : 0 < ((ngramWindows n (padded n w)).map List.dropLast).count g.dropLast :=
    List.count_pos_iff.2 (List.mem_map_of_mem List.dropLast hg)
  have h2 := List.single_le_sum (l := (splitWs corpus).map
      (fun w' => ((ngramWindows n (padded n w')).map List.dropLast).count g.dropLast))
    (fun x _ => Nat.zero_le x) _
    (List.mem_map_of_mem
      (fun w' => ((ngramWindows n (padded n w')).map List.dropLast).count g.dropLast) hw)
  exact lt_of_lt_of_le h1 h2

/-- When every window has positive counts in both tables, the probability
loop neither raises nor shortcuts to zero: it returns a positive product. -/
lemma probGo_pos (m : NgramCharacterModel) :
    ∀ (gs : List (List Char)) (acc : ℚ),
      (∀ g ∈ gs, 0 < m.ngram_counts g ∧ 0 < m.ctx_counts g.dropLast) → 0 < acc →
      ∃ q, probGo m gs acc = some q ∧ 0 < q
  | [], acc, _, hacc => ⟨acc, rfl, hacc⟩
  | g :: gs, acc, h, hacc => by
    obtain ⟨hg, hp⟩ := h g (List.mem_cons_self g gs)
    rw [probGo, if_neg (by omega), if_neg (by omega)]
    refine probGo_pos m gs _ (fun g' hg' => h g' (List.mem_cons_of_mem g hg')) ?_
    have hgq : (0 : ℚ) < (m.ngram_counts g : ℚ) := by exact_mod_cast hg
    have hpq : (0 : ℚ) < (m.ctx_counts g.dropLast : ℚ) := by exact_mod_cast hp
    exact mul_pos hacc (div_pos hgq hpq)

/-- Probability of a word that occurs as a token of the training corpus is a
positive rational (no raising branch, no zero shortcut). -/
lemma word_probability_of_trained_mem {corpus w : List Char} {n : Nat}
    (hw : w ∈ splitWs corpus) :
    ∃ q, (NgramCharacterModel.train corpus n).word_probability w = some q ∧ 0 < q := by
  refine probGo_pos _ _ 1 (fun g hg => ?_) one_pos
  have hg' : g ∈ ngramWindows n (padded n w) := hg
  exact ⟨ngramCount_pos_of_mem hw hg', ctxCount_pos_of_mem hw hg'⟩

/-- Counting is independent of which lawful boolean-equality instance is
used (the instance derived from decidable equality versus the structural
one on lists). -/
lemma count_decEq_inst (a : List Char) (l : List (List Char)) :
    @List.count (List Char) instBEqOfDecidableEq a l = l.count a := by
  rw [@List.count_eq_countP (List Char) instBEqOfDecidableEq, List.count_eq_countP]
  refine List.countP_congr fun x _ => ?_
  constructor <;> intro h <;> simp_all

/-- Occurrence count of a window in the training stream equals its entry in
the trained ngram table. -/
lemma count_allNgrams (corpus : List Char) (n : Nat) (g : List Char) :
    (allNgrams corpus n).count g = ngramCount corpus n g := by
  unfold allNgrams ngramCount
  rw [List.count_flatMap]
  rfl

/-- Every window counted during training has length `n`. -/
lemma length_of_mem_allNgrams {corpus g : List Char} {n : Nat}
    (hg : g ∈ allNgrams corpus n) : g.length = n := by
  obtain ⟨w, _, hgw⟩ := List.mem_flatMap.1 hg
  exact length_of_mem_ngramWindows hgw

/-- The context table entry at `p` counts the training windows whose
`[:-1]` slice is `p`. -/
lemma ctxCount_eq_countP (corpus : List Char) (n : Nat) (p : List Char) :
    ctxCount corpus n p = (allNgrams corpus n).countP (fun g => g.dropLast == p) := by
  unfold ctxCount allNgrams
  rw [List.countP_flatMap]
  refine congrArg List.sum (List.map_congr_left fun w _ => ?_)
  rw [List.count_eq_countP, List.countP_map]
  rfl

/-- Claim C1 (code bug exhibited).  On the model trained on corpus "ab" with
order 2, the word "ac" contains the window "ac" whose ngram count is 0 while
its 1-character context "a" has nonzero count; instead of returning 0.0 for
the whole word, `_word_probability` reaches `math.log(0.0/1)` and raises
`ValueError` — modelled here by the result `none`. -/
theorem C1_word_probability_raises_on_unseen_ngram :
    0 < ctxCount ("ab".data) 2 ['a'] ∧
    ngramCount ("ab".data) 2 ['a', 'c'] = 0 ∧
    (NgramCharacterModel.train ("ab".data) 2).word_probability ("ac".data) = none :=
  ⟨by decide, by decide, by decide⟩

/-- Claim C2, counterexample.  Constructing a model with order 1 (< 2) does
not fail fast with any error: `__init__` returns normally and produces the
fully trained model. -/
theorem C2_counterexample_order_one_succeeds :
    NgramCharacterModel.init ("ab".data) 1 =
      Except.ok (NgramCharacterModel.train ("ab".data) 1) ∧
    (NgramCharacterModel.train ("ab".data) 1).words = [['a', 'b']] :=
  ⟨rfl, by decide⟩

/-- Claim C2 as amended.  Construction never fails for any corpus and any
order — including every order < 2, for which the claim predicted an
InvalidConfiguration failure — and the model produced is complete: it
carries the requested order, the full vocabulary and both count tables. -/
theorem C2_amended_construction_never_fails (corpus : List Char) (n : Nat) :
    ∃ m, NgramCharacterModel.init corpus n = Except.ok m ∧ m.n = n ∧
      m.words = (splitWs corpus).dedup ∧
      (∀ g, m.ngram_counts g = ngramCount corpus n g) ∧
      (∀ p, m.ctx_counts p = ctxCount corpus n p) :=
  ⟨NgramCharacterModel.train corpus n, rfl, rfl, rfl, fun _ => rfl, fun _ => rfl⟩

/-- Claim C3.  For every corpus and every word occurring as a
whitespace-delimited token of it, the trained model assigns the word a
probability that is strictly positive (and in particular the computation
does not raise). -/
theorem C3_probability_pos_of_trained_word (corpus : List Char) (n : Nat)
    (w : List Char) (hw : w ∈ splitWs corpus) :
    ∃ q, (NgramCharacterModel.train corpus n).word_probability w = some q ∧ 0 < q :=
  word_probability_of_trained_mem hw

/-- Witness for C3 at corpus "ab", order 2, word "ab". -/
theorem C3_witness :
    ("ab".data ∈ splitWs ("ab".data)) ∧
    ∃ q, (NgramCharacterModel.train ("ab".data) 2).word_probability ("ab".data) =
        some q ∧ 0 < q :=
  ⟨by decide, C3_probability_pos_of_trained_word ("ab".data) 2 ("ab".data) (by decide)⟩

/-- Claim C4.  After training: every counted ngram's context entry (at the
key formed by its first `order - 1` characters) dominates its own entry, and
every context entry is the sum of the ngram entries over the distinct
counted ngrams whose first `order - 1` characters equal that context. -/
theorem C4_count_tables_invariant (corpus : List Char) (n : Nat) :
    (∀ g, 0 < ngramCount corpus n g →
        ngramCount corpus n g ≤ ctxCount corpus n (g.take (n - 1))) ∧
    (∀ p, ctxCount corpus n p =
        (((allNgrams corpus n).dedup.filter (fun g => g.take (n - 1) == p)).map
            (ngramCount corpus n)).sum) := by
  constructor
  · intro g hpos
    have hpos' : 0 < ((splitWs corpus).map
        (fun w => (ngramWindows n (padded n w)).count g)).sum := hpos
    obtain ⟨w, hw, hcw⟩ := exists_pos_of_sum_map_pos hpos'
    have hgmem : g ∈ ngramWindows n (padded n w) := List.count_pos_iff.1 hcw
    have hlen := length_of_mem_ngramWindows hgmem
    have hdl : g.take (n - 1) = g.dropLast := by
      rw [List.dropLast_eq_take, hlen]
    rw [hdl]
    unfold ngramCount ctxCount
    exact List.sum_le_sum fun w' _ => count_le_count_map List.dropLast _ g
  · intro p
    have h1 := List.sum_map_count_dedup_filter_eq_countP
      (fun g => g.take (n - 1) == p) (allNgrams corpus n)
    have h2 : (allNgrams corpus n).countP (fun g => g.take (n - 1) == p)
        = (allNgrams corpus n).countP (fun g => g.dropLast == p) := by
      refine List.countP_congr fun g hg => ?_
      have hdl : g.dropLast = g.take (n - 1) := by
        rw [List.dropLast_eq_take, length_of_mem_allNgrams hg]
      simp [hdl]
    rw [ctxCount_eq_countP, ← h2, ← h1]
    exact congrArg List.sum (List.map_congr_left fun g _ =>
      (count_decEq_inst g (allNgrams corpus n)).trans (count_allNgrams corpus n g))

/-- Witness for C4 at corpus "ab", order 2, ngram "#a". -/
theorem C4_witness :
    0 < ngramCount ("ab".data) 2 ['#', 'a'] ∧
    ngramCount ("ab".data) 2 ['#', 'a'] ≤
      ctxCount ("ab".data) 2 (['#', 'a'].take (2 - 1)) :=
  ⟨by decide, (C4_count_tables_invariant ("ab".data) 2).1 ['#', 'a'] (by decide)⟩

/-- Unfolding step for Python `max`: scanning `c, d, ds…` keeps `c` exactly
when its key already dominates the first maximum of `d :: ds`. -/
lemma maxKeyFold_cons {α : Type} (key : α → ℚ) :
    ∀ (ds : List α) (c d : α),
      maxKeyFold key c (d :: ds) =
        if key (maxKeyFold key d ds) ≤ key c then c else maxKeyFold key d ds
  | [], c, d => by
    simp only [maxKeyFold]
    rcases le_or_lt (key d) (key c) with h | h
    · rw [if_neg (not_lt.2 h), if_pos h]
    · rw [if_pos h, if_neg (not_le.2 h)]
  | e :: es, c, d => by
    have IHd := maxKeyFold_cons key es d e
    have IHc := maxKeyFold_cons key es c e
    show (if key c < key d then maxKeyFold key d (e :: es)
          else maxKeyFold key c (e :: es)) = _
    rw [IHd, IHc]
    split_ifs <;> first | rfl | (exfalso; linarith)

/-- Head of the stable descending insertion sort is the earliest maximum,
that is, exactly the value Python's `max(candidates, key=f)` picks. -/
lemma head_insertionSort_eq_maxKeyFold {α : Type} (key : α → ℚ) :
    ∀ (cs : List α) (c : α),
      (List.insertionSort (fun a b => key b ≤ key a) (c :: cs)).head? =
        some (maxKeyFold key c cs)
  | [], c => by
    simp [List.insertionSort, maxKeyFold]
  | d :: ds, c => by
    have IH := head_insertionSort_eq_maxKeyFold key ds d
    cases hS : List.insertionSort (fun a b => key b ≤ key a) (d :: ds) with
    | nil => rw [hS] at IH; simp at IH
    | cons h t =>
      rw [hS] at IH
      have hh : h = maxKeyFold key d ds := by
        simpa using IH
      have hstep : List.insertionSort (fun a b => key b ≤ key a) (c :: d :: ds)
          = List.orderedInsert (fun a b => key b ≤ key a) c (h :: t) := by
        show List.orderedInsert (fun a b => key b ≤ key a) c
            (List.insertionSort (fun a b => key b ≤ key a) (d :: ds)) = _
        rw [hS]
      rw [hstep, maxKeyFold_cons key ds c d, ← hh]
      simp only [List.orderedInsert]
      by_cases hch : key h ≤ key c
      · rw [if_pos hch, if_pos hch]; rfl
      · rw [if_neg hch, if_neg hch]; rfl

/-- Taking at least one element preserves the head of a list. -/
lemma head_take_of_pos {α : Type} {k : Nat} (hk : 1 ≤ k) (l : List α) :
    (l.take k).head? = l.head? := by
  cases l with
  | nil => simp
  | cons a l =>
    cases k with
    | zero => omega
    | succ k => simp

/-- Claim C5.  For every model, prefix and bound k, the ranked completion
list contains only vocabulary words starting with the prefix, is sorted by
non-increasing probability, is no longer than k and than the candidate set,
and is empty for k = 0. -/
theorem C5_rankedTopK_spec (m : NgramCharacterModel) (p : List Char) (k : Nat) :
    (∀ w ∈ m.predict_top_words p k, w ∈ m.words ∧ p.isPrefixOf w = true) ∧
    (m.predict_top_words p k).Pairwise (fun a b => probVal m b ≤ probVal m a) ∧
    (m.predict_top_words p k).length ≤ k ∧
    (m.predict_top_words p k).length ≤
      (m.words.filter (fun w => p.isPrefixOf w)).length ∧
    (k = 0 → m.predict_top_words p k = []) := by
  cases hf : m.words.filter (fun w => p.isPrefixOf w) with
  | nil =>
    simp [NgramCharacterModel.predict_top_words, hf]
  | cons c cs =>
    haveI ht : IsTotal (List Char) (fun a b => probVal m b ≤ probVal m a) :=
      ⟨fun a b => le_total (probVal m b) (probVal m a)⟩
    haveI htr : IsTrans (List Char) (fun a b => probVal m b ≤ probVal m a) :=
      ⟨fun _ _ _ hab hbc => le_trans hbc hab⟩
    have hperm := List.perm_insertionSort (fun a b => probVal m b ≤ probVal m a) (c :: cs)
    have hsorted := List.sorted_insertionSort (fun a b => probVal m b ≤ probVal m a) (c :: cs)
    have hunf : m.predict_top_words p k =
        (List.insertionSort (fun a b => probVal m b ≤ probVal m a) (c :: cs)).take k := by
      simp [NgramCharacterModel.predict_top_words, hf]
    refine ⟨?_, ?_, ?_, ?_, ?_⟩
    · intro w hw
      rw [hunf] at hw
      have hw2 := hperm.mem_iff.1 (List.mem_of_mem_take hw)
      have hw3 : w ∈ m.words.filter (fun w => p.isPrefixOf w) := by
        rw [hf]; exact hw2
      exact List.mem_filter.1 hw3
    · rw [hunf]
      exact List.Pairwise.sublist (List.take_sublist _ _) hsorted
    · rw [hunf, List.length_take]
      exact inf_le_left
    · rw [hunf, List.length_take]
      exact le_trans inf_le_right (le_of_eq hperm.length_eq)
    · intro hk
      rw [hunf, hk]
      simp

/-- Witness for C5: with k = 0 the ranked list is empty. -/
theorem C5_witness :
    (NgramCharacterModel.train ("ab".data) 2).predict_top_words ['a'] 0 = [] :=
  (C5_rankedTopK_spec (NgramCharacterModel.train ("ab".data) 2) ['a'] 0).2.2.2.2 rfl

/-- Claim C6.  When no vocabulary word starts with the prefix (in particular
when the vocabulary is empty), the ranked query returns the empty list and
the best-match query echoes the prefix back; neither raises. -/
theorem C6_no_match_graceful (m : NgramCharacterModel) (p : List Char) (k : Nat)
    (h : ∀ w ∈ m.words, p.isPrefixOf w = false) :
    m.predict_top_words p k = [] ∧ m.generate_word p = p := by
  have hf : m.words.filter (fun w => p.isPrefixOf w) = [] :=
    List.filter_eq_nil_iff.2 fun a ha => by simp [h a ha]
  constructor
  · simp [NgramCharacterModel.predict_top_words, hf]
  · simp [NgramCharacterModel.generate_word, hf]

/-- Witness for C6 on the empty vocabulary (model trained on the empty
corpus). -/
theorem C6_witness :
    (∀ w ∈ (NgramCharacterModel.train [] 2).words, List.isPrefixOf ['a'] w = false) ∧
    (NgramCharacterModel.train [] 2).predict_top_words ['a'] 3 = [] ∧
    (NgramCharacterModel.train [] 2).generate_word ['a'] = ['a'] :=
  ⟨by decide, C6_no_match_graceful (NgramCharacterModel.train [] 2) ['a'] 3 (by decide)⟩

/-- Claim C10.  Whenever at least one vocabulary word matches the prefix and
k ≥ 1, the single best match of `_generate_word` is exactly the first
element of `predict_top_words`: Python's first-maximum `max` agrees with the
head of the stable descending sort, including on probability ties. -/
theorem C10_bestMatch_eq_head_rankedTopK (m : NgramCharacterModel) (p : List Char)
    (k : Nat) (hk : 1 ≤ k)
    (hc : m.words.filter (fun w => p.isPrefixOf w) ≠ []) :
    (m.predict_top_words p k).head? = some (m.generate_word p) := by
  cases hf : m.words.filter (fun w => p.isPrefixOf w) with
  | nil => exact absurd hf hc
  | cons c cs =>
    have h1 : m.predict_top_words p k =
        (List.insertionSort (fun a b => probVal m b ≤ probVal m a) (c :: cs)).take k := by
      simp [NgramCharacterModel.predict_top_words, hf]
    have h2 : m.generate_word p = maxKeyFold (probVal m) c cs := by
      simp [NgramCharacterModel.generate_word, hf]
    rw [h1, h2, head_take_of_pos hk, head_insertionSort_eq_maxKeyFold]

/-- Witness for C10 at the model trained on "ab cat", prefix "c", k = 1. -/
theorem C10_witness :
    ((NgramCharacterModel.train ("ab cat".data) 2).words.filter
        (fun w => List.isPrefixOf ['c'] w) ≠ []) ∧
    ((NgramCharacterModel.train ("ab cat".data) 2).predict_top_words ['c'] 1).head? =
      some ((NgramCharacterModel.train ("ab cat".data) 2).generate_word ['c']) :=
  ⟨by decide, C10_bestMatch_eq_head_rankedTopK (NgramCharacterModel.train ("ab cat".data) 2)
    ['c'] 1 (by decide) (by decide)⟩

/-- Claim C7 as amended.  The LEFT/RIGHT arrows shift the cursor by one,
clamped to [0, len(buffer)]; when the cursor actually moves, the suggestions
are recomputed from the word now under the cursor and the cycle index is
reset to 0; but when the cursor already sits at the clamping boundary
(cursor = 0 for LEFT, cursor = len for RIGHT) the handler leaves the whole
session state unchanged — it does not recompute suggestions and does not
reset the cycle index. -/
theorem C7_amended_moves (s : TerminalUI) :
    (0 < s.cursor_pos →
      s.handle_input KEY_LEFT =
        ({ s with
            cursor_pos := s.cursor_pos - 1
            suggestions := s.prediction_model.predict_top_words
              (TerminalUI.get_current_word { s with cursor_pos := s.cursor_pos - 1 }) 10
            current_suggestion_idx := 0 }, true)) ∧
    (s.cursor_pos = 0 → s.handle_input KEY_LEFT = (s, true)) ∧
    (s.cursor_pos < s.user_input.length →
      s.handle_input KEY_RIGHT =
        ({ s with
            cursor_pos := s.cursor_pos + 1
            suggestions := s.prediction_model.predict_top_words
              (TerminalUI.get_current_word { s with cursor_pos := s.cursor_pos + 1 }) 10
            current_suggestion_idx := 0 }, true)) ∧
    (s.user_input.length ≤ s.cursor_pos → s.handle_input KEY_RIGHT = (s, true)) := by
  refine ⟨fun h => ?_, fun h => ?_, fun h => ?_, fun h => ?_⟩
  · simp [TerminalUI.handle_input, KEY_RESIZE, KEY_BACKSPACE, KEY_LEFT, KEY_RIGHT, h]
  · simp [TerminalUI.handle_input, KEY_RESIZE, KEY_BACKSPACE, KEY_LEFT, KEY_RIGHT, h]
  · simp [TerminalUI.handle_input, KEY_RESIZE, KEY_BACKSPACE, KEY_LEFT, KEY_RIGHT, h]
  · have h' : ¬ s.cursor_pos < s.user_input.length := not_lt.2 h
    simp [TerminalUI.handle_input, KEY_RESIZE, KEY_BACKSPACE, KEY_LEFT, KEY_RIGHT, h']

/-- Witness for C7 at a concrete state with the cursor strictly inside the
buffer. -/
theorem C7_witness :
    (let s : TerminalUI :=
      { prediction_model := NgramCharacterModel.train ("ab".data) 2
        user_input := "ab".data
        cursor_pos := 1
        suggestions := []
        current_suggestion_idx := 5
        scores := []
        total_letter_keys_typed := 0
        total_tab_key_presses := 0 }
     0 < s.cursor_pos ∧
     s.handle_input KEY_LEFT =
       ({ s with
           cursor_pos := s.cursor_pos - 1
           suggestions := s.prediction_model.predict_top_words
             (TerminalUI.get_current_word { s with cursor_pos := s.cursor_pos - 1 }) 10
           current_suggestion_idx := 0 }, true)) :=
  ⟨Nat.one_pos, (C7_amended_moves _).1 Nat.one_pos⟩

/-- Claim C7, counterexample to the claim as stated.  At a state whose
cursor already sits at the left boundary, the LEFT arrow leaves the state
completely unchanged: in particular the cycle index stays 3 instead of
being reset to 0, and no suggestion recomputation happens. -/
theorem C7_counterexample_boundary_noop :
    (let s : TerminalUI :=
      { prediction_model := NgramCharacterModel.train ("ab".data) 2
        user_input := "ab".data
        cursor_pos := 0
        suggestions := []
        current_suggestion_idx := 3
        scores := []
        total_letter_keys_typed := 0
        total_tab_key_presses := 0 }
     s.handle_input KEY_LEFT = (s, true) ∧
     (s.handle_input KEY_LEFT).1.current_suggestion_idx = 3) :=
  ⟨rfl, rfl⟩

/-- Claim C8.  Dispatching the quit key (ESC, code 27) moves the session
into the terminated (`running = false`) state while leaving every component
unchanged, and the terminated state is absorbing: dispatching any further
key on it is a complete no-op (buffer, cursor, suggestions, cycle index and
metrics all unchanged) rather than an error. -/
theorem C8_quit_absorbing (s : TerminalUI) (key : Nat) :
    dispatch (s, true) 27 = (s, false) ∧ dispatch (s, false) key = (s, false) :=
  ⟨rfl, rfl⟩

/-- Claim C9.  The metrics quadruple is the two raw counters followed by the
per-word averages over the whitespace-delimited words of the buffer, with
both averages exactly 0 when the buffer has no words; and the spec's
concrete instance: 6 typed letters over a 2-word buffer with 2 tab presses
gives averages 3 and 1. -/
theorem C9_metrics_spec (s : TerminalUI) (text : List Char) :
    s.calculate_scores text =
      [(s.total_letter_keys_typed : ℚ), (s.total_tab_key_presses : ℚ),
       if (splitWs (stripWs text)).length = 0 then 0
       else (s.total_letter_keys_typed : ℚ) / ((splitWs (stripWs text)).length : ℚ),
       if (splitWs (stripWs text)).length = 0 then 0
       else (s.total_tab_key_presses : ℚ) / ((splitWs (stripWs text)).length : ℚ)] ∧
    TerminalUI.calculate_scores
      { prediction_model := NgramCharacterModel.train [] 2
        user_input := "abc def".data
        cursor_pos := 7
        suggestions := []
        current_suggestion_idx := 0
        scores := []
        total_letter_keys_typed := 6
        total_tab_key_presses := 2 } ("abc def".data) = [6, 2, 3, 1] := by
  constructor
  · rcases Nat.eq_zero_or_pos (splitWs (stripWs text)).length with h | h
    · simp [TerminalUI.calculate_scores, h]
    · simp [TerminalUI.calculate_scores, h, Nat.pos_iff_ne_zero.1 h]
  · have hw : (splitWs (stripWs ("abc def".data))).length = 2 := by decide
    simp [TerminalUI.calculate_scores, hw]
    norm_num
